import Mathlib

/-!
Verification of the registry reference-resolution and push-coordination core
of the docker CLI/daemon pair described in `spec.md`.

The resolver, policy store and operation coordinator themselves are not part
of the excerpted sources (only their integration tests and CLI callers are),
so the definitions below are modelled from the specification and checked
against the behaviour the integration tests pin down.

Strings are embedded as lists of characters so that every parsing function is
structurally recursive and computes by kernel reduction.
-/

namespace Docker

/-- A string, embedded as its list of characters. -/
abbrev Str := List Char

/-- Coerce a Lean string literal into the embedded representation. -/
def chars (s : String) : Str := s.data

/-- `isPre p s` holds when `p` is an initial segment of `s`. -/
def isPre : Str → Str → Bool
  | [], _ => true
  | _ :: _, [] => false
  | p :: ps, c :: cs => p == c && isPre ps cs

/-- `containsSub s sub`: `sub` occurs contiguously somewhere inside `s`. -/
def containsSub : Str → Str → Bool
  | [], sub => sub.isEmpty
  | c :: rest, sub => isPre sub (c :: rest) || containsSub rest sub

/-- Split accumulator: splits a character list at every occurrence of `c`. -/
def splitOnAux (c : Char) : Str → Str → List Str
  | [], acc => [acc.reverse]
  | x :: xs, acc =>
    if x = c then acc.reverse :: splitOnAux c xs []
    else splitOnAux c xs (x :: acc)

/-- Split a character list at every occurrence of `c`. -/
def splitOnC (c : Char) (s : Str) : List Str := splitOnAux c s []

/-- Rejoin path segments with `/` separators. -/
def joinSlash : List Str → Str
  | [] => []
  | [x] => x
  | x :: xs => x ++ '/' :: joinSlash xs

/-- Number of `/`-separated segments of a path. -/
def segCount (s : Str) : Nat := (splitOnC '/' s).length

/-- Scan a reversed reference from the end looking for a trailing `:tag`:
stops without a tag at the first `/`, reports the tag at the first `:`. -/
def findTagSplit : Str → Str → Option (Str × Str)
  | [], _ => none
  | c :: rest, acc =>
    if c = '/' then none
    else if c = ':' then some (rest.reverse, acc)
    else findTagSplit rest (c :: acc)

/-- Modelled from the spec: split a raw reference into repository and tag
(the tag is the part after the last `:` provided no `/` follows it; an
absent tag is returned as the empty string and defaults to `latest`
downstream). This stands in for the repository/tag parser the excerpt only
calls (`parsers.ParseRepositoryTag`). -/
def splitRepoTag (s : Str) : Str × Str :=
  match findTagSplit s.reverse [] with
  | some (repo, tag) => (repo, tag)
  | none => (s, [])

/-- Modelled from the spec: a leading path segment denotes a registry host
when it contains a dot, a colon-port, or is literally `localhost`. -/
def isHostSeg (s : Str) : Bool :=
  s.contains '.' || s.contains ':' || s == chars "localhost"

/-- Modelled from the spec: split a (tag-free) repository string into an
optional explicit registry host and the repository path. This stands in for
the hostname-splitting step of `registry.ParseRepositoryInfo`, which the
excerpt only calls. -/
def splitHost (repo : Str) : Option Str × Str :=
  match splitOnC '/' repo with
  | [] => (none, repo)
  | seg :: rest =>
    if rest.isEmpty then (none, repo)
    else if isHostSeg seg then (some seg, joinSlash rest)
    else (none, repo)

/-- The public default registry host. -/
def publicDefault : Str := chars "docker.io"

/-- Modelled from the spec: the public default's index alias is folded into
its canonical host name; every other host is left unchanged. -/
def normalizeHost (h : Str) : Str :=
  if h = chars "index.docker.io" then publicDefault else h

/-- The canonical official-namespace marker. -/
def libraryPre : Str := chars "library/"

/-- Modelled from the spec: a single-segment repository path is rewritten to
the canonical official form `library/<path>` when matched against the public
default registry. -/
def normalizePath (path : Str) : Str :=
  if segCount path = 1 then libraryPre ++ path else path

/-- Modelled from the spec: the Registry Policy Store, immutable after
daemon startup. `blockPublic` and `blockAll` are the sentinel values of the
repeatable `block-registry` option. -/
structure RegistryPolicy where
  additionalRegistries : List Str
  blockedRegistries : List Str
  blockPublic : Bool
  blockAll : Bool
deriving DecidableEq

/-- Modelled from the spec: build a policy snapshot from the startup flags
`additional-registries` and `block-registry` (the latter accepting a literal
host, the public default's alias `public`, its canonical host name, or
`all`). -/
def mkPolicy (additional blockFlags : List Str) : RegistryPolicy where
  additionalRegistries := additional
  blockedRegistries :=
    blockFlags.filter fun b =>
      ¬(b = chars "all" ∨ b = chars "public" ∨ b = publicDefault)
  blockPublic := blockFlags.any fun b =>
    b = chars "public" ∨ b = publicDefault
  blockAll := decide (chars "all" ∈ blockFlags)

/-- The policy of a daemon started with no registry flags at all. -/
def defaultPolicy : RegistryPolicy := ⟨[], [], false, false⟩

/-- Modelled from the spec: a host is blocked when it is literally in the
blocked set, when the block-all sentinel is set, or when the block-public
sentinel is set and the host is the public default. -/
def IsBlocked (p : RegistryPolicy) (h : Str) : Bool :=
  p.blockAll || (p.blockPublic && h = publicDefault) ||
    decide (h ∈ p.blockedRegistries)

/-- Modelled from the spec: ordered candidate hosts for an unqualified
reference — the public default followed by the additional registries in
declared order, each filtered through `IsBlocked`. -/
def CandidateHosts (p : RegistryPolicy) : List Str :=
  (publicDefault :: p.additionalRegistries).filter fun h => !IsBlocked p h

/-- Modelled from the spec: a resolved endpoint carries the (possibly
normalized) remote repository path, the user-visible local name, and the
official-public marker. -/
structure ResolvedEndpoint where
  host : Str
  remotePath : Str
  localName : Str
  isOfficialPublic : Bool
deriving DecidableEq

/-- Modelled from the spec: pair a candidate host with the repository path,
normalizing official names when the host is the public default and
recording the user-visible name unchanged. -/
def mkEndpoint (h path : Str) : ResolvedEndpoint :=
  if h = publicDefault then
    let np := normalizePath path
    ⟨h, np, path, isPre libraryPre np⟩
  else ⟨h, path, path, false⟩

/-- Resolution failures of the Reference Resolver. -/
inductive ResolveError where
  | BlockedRegistry
  | AllRegistriesBlocked
deriving DecidableEq

/-- Modelled from the spec: `Resolve` parses a raw reference, emits a single
candidate for a qualified reference (failing with `BlockedRegistryError`
when its host is blocked, with no fallback), and emits the filtered ordered
candidate list for an unqualified one (failing with
`AllRegistriesBlockedError` when every candidate is blocked). -/
def Resolve (p : RegistryPolicy) (raw : Str) : Except ResolveError (List ResolvedEndpoint) :=
  let repo := (splitRepoTag raw).1
  match splitHost repo with
  | (some h, path) =>
    let h2 := normalizeHost h
    if IsBlocked p h2 then .error .BlockedRegistry
    else .ok [mkEndpoint h2 path]
  | (none, path) =>
    let hosts := CandidateHosts p
    if hosts.isEmpty then .error .AllRegistriesBlocked
    else .ok (hosts.map fun h => mkEndpoint h path)

/-- The local image store: a list of (repository name, tag) pairs, exactly
as created by `docker tag`. -/
abbrev LocalStore := List (Str × Str)

/-- The remote contents visible to the transfer collaborator: a list of
(host, repository path, tag) triples. -/
abbrev Remote := List (Str × Str × Str)

/-- `remoteHas R h p t`: the image `p:t` exists on registry `h`. -/
def remoteHas (R : Remote) (h p t : Str) : Bool := decide ((h, p, t) ∈ R)

/-- An absent tag selector defaults to `latest`. -/
def defaultTag (t : Str) : Str := if t.isEmpty then chars "latest" else t

/-- Strip the canonical `library/` marker from an official remote path. -/
def dropLibrary (s : Str) : Str := s.drop libraryPre.length

/-- Modelled from the spec: the name under which a pulled image is recorded
and listed — host-qualified, with the official `library/` marker elided for
the public default registry. -/
def displayName (e : ResolvedEndpoint) : Str :=
  if e.isOfficialPublic then e.host ++ '/' :: dropLibrary e.remotePath
  else e.host ++ '/' :: e.remotePath

/-- Pull failures surfaced to the CLI. -/
inductive PullError where
  | blockedRegistry
  | allRegistriesBlocked
  | notFound (name tag : Str)
deriving DecidableEq

/-- Modelled from the spec: the user-facing pull error messages; the
not-found message names the normalized image with its (defaulted) tag. -/
def pullErrMessage : PullError → Str
  | .blockedRegistry => chars "All endpoints blocked."
  | .allRegistriesBlocked => chars "All endpoints blocked."
  | .notFound n t => chars "Error: image " ++ n ++ ':' :: t ++ chars " not found"

/-- First candidate on which the requested image is found, in candidate
order. -/
def findCandidate (R : Remote) (tag : Str) : List ResolvedEndpoint → Option ResolvedEndpoint
  | [] => none
  | e :: es => if remoteHas R e.host e.remotePath tag then some e else findCandidate R tag es

/-- Remote path of the first candidate (used for the not-found message). -/
def headRemotePath : List ResolvedEndpoint → Str
  | [] => []
  | e :: _ => e.remotePath

/-- Modelled from the spec: a pull resolves the reference, tries the
candidates strictly in order, records the image under its display name on
the first hit, and reports not-found after exhausting the list. -/
def doPull (p : RegistryPolicy) (R : Remote) (st : LocalStore) (raw : Str) :
    Except PullError LocalStore :=
  let tag := defaultTag (splitRepoTag raw).2
  match Resolve p raw with
  | .error .BlockedRegistry => .error .blockedRegistry
  | .error .AllRegistriesBlocked => .error .allRegistriesBlocked
  | .ok cands =>
    match findCandidate R tag cands with
    | some e => .ok ((displayName e, tag) :: st)
    | none => .error (.notFound (headRemotePath cands) tag)

/-- `inspect` of a local image name with an explicit tag: a pure lookup in
the local store. -/
def inspectLookup (st : LocalStore) (name tag : Str) : Bool :=
  decide ((name, defaultTag tag) ∈ st)

/-- `inspect` of a raw local reference. -/
def inspectOk (st : LocalStore) (raw : Str) : Bool :=
  let rt := splitRepoTag raw
  inspectLookup st rt.1 rt.2

/-- Is some tag of `name` present locally? -/
def hasRepo (st : LocalStore) (name : Str) : Bool :=
  st.any fun e => e.1 = name

/-- Is the specific tag `name:tag` present locally? -/
def hasTag (st : LocalStore) (name tag : Str) : Bool :=
  decide ((name, tag) ∈ st)

/-- Push failures surfaced to the CLI. -/
inductive PushError where
  | unprefixedName
  | officialName (shortName : Str)
  | blockedRegistry
  | allRegistriesBlocked
  | repositoryNotFound (name : Str)
  | tagNotFound (name tag : Str)
deriving DecidableEq

/-- Modelled from the spec: user-facing push error messages; the two
not-found kinds carry distinct messages, and the official-namespace
rejection advises renaming to `<user>/<name>`. -/
def pushErrMessage : PushError → Str
  | .unprefixedName =>
    chars "you cannot push an unnamed root repository; please specify a registry and a name"
  | .officialName short =>
    chars "you cannot push to the official namespace; please rename your repository to one of the form: <user>/" ++ short
  | .blockedRegistry => chars "error: registry blocked by policy"
  | .allRegistriesBlocked => chars "error: all registries blocked by policy"
  | .repositoryNotFound n => chars "Repository does not exist: " ++ n
  | .tagNotFound n t => chars "tag does not exist: " ++ n ++ ':' :: t

/-- Modelled from the spec: the local-existence and policy checks shared by
every push that passed the name-shape checks — the repository must be known
locally, a requested tag must exist locally, and the reference must resolve
under the blocking policy before any upload is attempted. -/
def pushChecked (p : RegistryPolicy) (st : LocalStore) (repo tag : Str) :
    Except PushError (List ResolvedEndpoint) :=
  if ¬hasRepo st repo then .error (.repositoryNotFound repo)
  else if ¬tag.isEmpty ∧ ¬hasTag st repo tag then .error (.tagNotFound repo tag)
  else
    match Resolve p repo with
    | .error .BlockedRegistry => .error .blockedRegistry
    | .error .AllRegistriesBlocked => .error .allRegistriesBlocked
    | .ok cands => .ok cands

/-- Modelled from the spec: a push first enforces the caller's convention on
the name shape — a single-segment unqualified name is rejected outright, an
unqualified name in the canonical official namespace is rejected with the
rename advisory — and then runs the local-existence and policy checks. -/
def doPush (p : RegistryPolicy) (st : LocalStore) (raw : Str) :
    Except PushError (List ResolvedEndpoint) :=
  let rt := splitRepoTag raw
  match splitHost rt.1 with
  | (none, path) =>
    if segCount path = 1 then .error .unprefixedName
    else if isPre libraryPre path then .error (.officialName (dropLibrary path))
    else pushChecked p st rt.1 rt.2
  | (some _, _) => pushChecked p st rt.1 rt.2

/-- Outcome of a push as observed by the CLI front end: exit code plus the
lines written to each standard stream. -/
structure PushOutcome where
  exitCode : Nat
  stdoutLines : List Str
  stderrLines : List Str
deriving DecidableEq

/-- Modelled from the spec: the CLI front end surfaces a push failure as a
non-zero exit status with the single error message on stderr, and a success
as exit status 0 with progress on stdout. -/
def runPush (p : RegistryPolicy) (st : LocalStore) (raw : Str) : PushOutcome :=
  match doPush p st raw with
  | .ok _ => ⟨0, [chars "push completed"], []⟩
  | .error e => ⟨1, [], [pushErrMessage e]⟩

/-- Does an `Except` result carry a success? -/
def exOk : Except ε α → Bool
  | .ok _ => true
  | .error _ => false

/-- Equality of `Except` results is decidable when it is for both sides. -/
instance exceptDecEq {ε α : Type} [DecidableEq ε] [DecidableEq α] :
    DecidableEq (Except ε α)
  | .error a, .error b =>
    if h : a = b then .isTrue (h ▸ rfl)
    else .isFalse fun hc => h (Except.error.inj hc)
  | .error _, .ok _ => .isFalse fun hc => Except.noConfusion hc
  | .ok _, .error _ => .isFalse fun hc => Except.noConfusion hc
  | .ok a, .ok b =>
    if h : a = b then .isTrue (h ▸ rfl)
    else .isFalse fun hc => h (Except.ok.inj hc)

/-- Modelled from the spec: the Operation Coordinator's per-identity lock
state — the current lease holder, if any, and the FIFO queue of waiting
pushes. Tasks are identified by numbers. -/
structure CoordState where
  holder : Option Nat
  waiters : List Nat
deriving DecidableEq

/-- Events the coordinator reacts to for one repository identity. -/
inductive CoordEvent where
  | acquire (t : Nat)
  | release (t : Nat)
  | kill (t : Nat)
deriving DecidableEq

/-- Hand the lease to the first waiter in FIFO order, or leave it free. -/
def grantNext : List Nat → CoordState
  | [] => ⟨none, []⟩
  | w :: ws => ⟨some w, ws⟩

/-- Modelled from the spec: the coordinator's transition function. An
acquire grants the free lease or appends the task to the FIFO wait queue; a
release by the holder hands the lease to the next waiter; the scoped-release
semantics make the death of the holder behave exactly like a release, and
the death of a waiter removes it from the queue without leaking the entry. -/
def step (s : CoordState) (e : CoordEvent) : CoordState :=
  match e with
  | .acquire t =>
    match s.holder with
    | none => ⟨some t, s.waiters⟩
    | some _ => ⟨s.holder, s.waiters ++ [t]⟩
  | .release t =>
    if s.holder = some t then grantNext s.waiters else s
  | .kill t =>
    if s.holder = some t then grantNext s.waiters
    else ⟨s.holder, s.waiters.erase t⟩

/-- Modelled from the spec: the status a raced early query of a concurrent
push observes while another push of the same identity holds the lease. -/
def pushStatus (s : CoordState) : Str :=
  if s.holder.isSome then chars "a push or pull is already in progress"
  else chars "idle"

/-- One round of progress: the current holder completes and releases. -/
def drainStep (s : CoordState) : CoordState :=
  match s.holder with
  | some t => step s (.release t)
  | none => s

/-- `n` rounds of progress. -/
def drainN : Nat → CoordState → CoordState
  | 0, s => s
  | n + 1, s => drainN n (drainStep s)

/-- The registry-level identity a resolution denotes: the candidate
(host, normalized remote path) pairs. -/
def resolveIdent (p : RegistryPolicy) (raw : Str) :
    Except ResolveError (List (Str × Str)) :=
  (Resolve p raw).map fun cs => cs.map fun e => (e.host, e.remotePath)

theorem isPre_append (p t : Str) : isPre p (p ++ t) = true := by
  induction p with
  | nil => rfl
  | cons c cs ih => simp [isPre, ih]

theorem isPre_self (p : Str) : isPre p p = true := by
  simpa using isPre_append p []

theorem containsSub_of_isPre {s sub : Str} (h : isPre sub s = true) :
    containsSub s sub = true := by
  cases s with
  | nil =>
    cases sub with
    | nil => rfl
    | cons c cs => simp [isPre] at h
  | cons c cs => simp [containsSub, h]

theorem containsSub_cons (c : Char) {s sub : Str} (h : containsSub s sub = true) :
    containsSub (c :: s) sub = true := by
  simp [containsSub, h]

theorem containsSub_append_left (pre : Str) {s sub : Str}
    (h : containsSub s sub = true) : containsSub (pre ++ s) sub = true := by
  induction pre with
  | nil => simpa using h
  | cons c cs ih => simpa using containsSub_cons c ih

theorem containsSub_self (s : Str) : containsSub s s = true := by
  cases s with
  | nil => rfl
  | cons c cs => exact containsSub_of_isPre (isPre_self _)

theorem containsSub_suffix (pre s : Str) : containsSub (pre ++ s) s = true :=
  containsSub_append_left pre (containsSub_self s)

theorem splitOnAux_ne_nil (c : Char) (s acc : Str) : splitOnAux c s acc ≠ [] := by
  induction s generalizing acc with
  | nil => simp [splitOnAux]
  | cons x xs ih =>
    simp only [splitOnAux]
    split
    · simp
    · exact ih _

theorem splitOnC_ne_nil (c : Char) (s : Str) : splitOnC c s ≠ [] :=
  splitOnAux_ne_nil c s []

theorem splitOnAux_no_sep {c : Char} {s : Str} (h : c ∉ s) (acc : Str) :
    splitOnAux c s acc = [acc.reverse ++ s] := by
  induction s generalizing acc with
  | nil => simp [splitOnAux]
  | cons x xs ih =>
    have hxc : ¬x = c := by
      intro he
      subst he
      exact h (List.mem_cons_self _ _)
    have hxs : c ∉ xs := fun hm => h (List.mem_cons_of_mem _ hm)
    simp only [splitOnAux, if_neg hxc]
    rw [ih hxs]
    simp

theorem splitOnC_no_sep {c : Char} {s : Str} (h : c ∉ s) : splitOnC c s = [s] := by
  simpa using splitOnAux_no_sep h []

theorem splitOnAux_sep {c : Char} {s₁ : Str} (h : c ∉ s₁) (s₂ acc : Str) :
    splitOnAux c (s₁ ++ c :: s₂) acc = (acc.reverse ++ s₁) :: splitOnC c s₂ := by
  induction s₁ generalizing acc with
  | nil => simp [splitOnAux, splitOnC]
  | cons x xs ih =>
    have hxc : ¬x = c := by
      intro he
      subst he
      exact h (List.mem_cons_self _ _)
    have hxs : c ∉ xs := fun hm => h (List.mem_cons_of_mem _ hm)
    simp only [List.cons_append, splitOnAux, if_neg hxc, List.append_eq]
    rw [ih hxs]
    simp

theorem splitOnC_sep {c : Char} {s₁ : Str} (h : c ∉ s₁) (s₂ : Str) :
    splitOnC c (s₁ ++ c :: s₂) = s₁ :: splitOnC c s₂ := by
  simpa using splitOnAux_sep h s₂ []

theorem findTagSplit_no_colon {s : Str} (h : ':' ∉ s) (acc : Str) :
    findTagSplit s acc = none := by
  induction s generalizing acc with
  | nil => rfl
  | cons x xs ih =>
    have hxc : ¬x = ':' := by
      intro he
      subst he
      exact h (List.mem_cons_self _ _)
    have hxs : ':' ∉ xs := fun hm => h (List.mem_cons_of_mem _ hm)
    by_cases hx : x = '/'
    · simp [findTagSplit, hx]
    · simp [findTagSplit, hx, hxc, ih hxs]

theorem splitRepoTag_no_colon {s : Str} (h : ':' ∉ s) : splitRepoTag s = (s, []) := by
  unfold splitRepoTag
  rw [findTagSplit_no_colon (fun hm => h (List.mem_reverse.mp hm)) []]

theorem segCount_no_slash {s : Str} (h : '/' ∉ s) : segCount s = 1 := by
  simp [segCount, splitOnC_no_sep h]

theorem segCount_sep {s₁ : Str} (h : '/' ∉ s₁) (s₂ : Str) :
    segCount (s₁ ++ '/' :: s₂) = segCount s₂ + 1 := by
  simp [segCount, splitOnC_sep h]

theorem segCount_pos (s : Str) : segCount s ≠ 0 := by
  simpa [segCount, List.length_eq_zero] using splitOnC_ne_nil '/' s

theorem joinSlash_cons_ne_nil (a : Str) {l : List Str} (h : l ≠ []) :
    joinSlash (a :: l) = a ++ '/' :: joinSlash l := by
  cases l with
  | nil => exact absurd rfl h
  | cons b bs => rfl

theorem joinSlash_splitOnAux (s acc : Str) :
    joinSlash (splitOnAux '/' s acc) = acc.reverse ++ s := by
  induction s generalizing acc with
  | nil => simp [splitOnAux, joinSlash]
  | cons x xs ih =>
    by_cases hx : x = '/'
    · subst hx
      have h1 : splitOnAux '/' ('/' :: xs) acc = acc.reverse :: splitOnAux '/' xs [] := by
        simp [splitOnAux]
      rw [h1, joinSlash_cons_ne_nil _ (splitOnAux_ne_nil _ _ _), ih]
      simp
    · simp only [splitOnAux, if_neg hx]
      rw [ih]
      simp

theorem joinSlash_splitOnC (s : Str) : joinSlash (splitOnC '/' s) = s := by
  simpa using joinSlash_splitOnAux s []

theorem splitHost_no_slash {s : Str} (h : '/' ∉ s) : splitHost s = (none, s) := by
  simp [splitHost, splitOnC_no_sep h]

theorem splitHost_host {s₁ : Str} (h : '/' ∉ s₁) (hh : isHostSeg s₁ = true)
    (s₂ : Str) : splitHost (s₁ ++ '/' :: s₂) = (some s₁, s₂) := by
  have hne := splitOnC_ne_nil '/' s₂
  simp [splitHost, splitOnC_sep h, hh, joinSlash_splitOnC, List.isEmpty_iff, hne]

theorem splitHost_noHost {s₁ : Str} (h : '/' ∉ s₁) (hh : isHostSeg s₁ = false)
    (s₂ : Str) : splitHost (s₁ ++ '/' :: s₂) = (none, s₁ ++ '/' :: s₂) := by
  have hne := splitOnC_ne_nil '/' s₂
  simp [splitHost, splitOnC_sep h, hh, List.isEmpty_iff, hne]

end Docker

namespace Docker

theorem candidateHosts_eq (p : RegistryPolicy) :
    CandidateHosts p =
      (if IsBlocked p publicDefault = true then [] else [publicDefault]) ++
        p.additionalRegistries.filter fun h => !IsBlocked p h := by
  unfold CandidateHosts
  rw [List.filter_cons]
  by_cases hb : IsBlocked p publicDefault = true
  · simp [hb]
  · simp [hb]

theorem candidateHosts_blockAll {p : RegistryPolicy} (h : p.blockAll = true) :
    CandidateHosts p = [] := by
  refine List.filter_eq_nil_iff.mpr ?_
  intro a _
  simp [IsBlocked, h]

theorem resolve_qualified {p : RegistryPolicy} {raw hh path : Str}
    (hsp : splitHost (splitRepoTag raw).1 = (some hh, path)) :
    Resolve p raw =
      if IsBlocked p (normalizeHost hh) then Except.error .BlockedRegistry
      else Except.ok [mkEndpoint (normalizeHost hh) path] := by
  simp only [Resolve]
  rw [hsp]

theorem resolve_unqualified {p : RegistryPolicy} {raw path : Str}
    (hsp : splitHost (splitRepoTag raw).1 = (none, path)) :
    Resolve p raw =
      if (CandidateHosts p).isEmpty then Except.error .AllRegistriesBlocked
      else Except.ok ((CandidateHosts p).map fun h => mkEndpoint h path) := by
  simp only [Resolve]
  rw [hsp]

theorem resolve_blockAll {p : RegistryPolicy} (hall : p.blockAll = true) (raw : Str) :
    Resolve p raw = .error .BlockedRegistry ∨
      Resolve p raw = .error .AllRegistriesBlocked := by
  rcases hsp : splitHost (splitRepoTag raw).1 with ⟨o, path⟩
  cases o with
  | some hh =>
    left
    simp [resolve_qualified hsp, IsBlocked, hall]
  | none =>
    right
    simp [resolve_unqualified hsp, candidateHosts_blockAll hall]

theorem pushChecked_blockAll {p : RegistryPolicy} (hall : p.blockAll = true)
    (st : LocalStore) (repo tag : Str) : exOk (pushChecked p st repo tag) = false := by
  unfold pushChecked
  split
  · rfl
  · split
    · rfl
    · rcases resolve_blockAll hall repo with h | h
      · rw [h]
        rfl
      · rw [h]
        rfl

theorem doPush_blockAll {p : RegistryPolicy} (hall : p.blockAll = true)
    (st : LocalStore) (raw : Str) : exOk (doPush p st raw) = false := by
  simp only [doPush]
  rcases hsp : splitHost (splitRepoTag raw).1 with ⟨o, path⟩
  cases o with
  | some hh => exact pushChecked_blockAll hall st _ _
  | none =>
    by_cases h1 : segCount path = 1
    · simp [h1, exOk]
    · by_cases h2 : isPre libraryPre path = true
      · simp [h1, h2, exOk]
      · simp only [h1, h2, if_false, ite_false, Bool.false_eq_true, if_neg]
        exact pushChecked_blockAll hall st _ _

theorem doPull_blockAll {p : RegistryPolicy} (hall : p.blockAll = true)
    (R : Remote) (st : LocalStore) (raw : Str) : exOk (doPull p R st raw) = false := by
  simp only [doPull]
  rcases resolve_blockAll hall raw with h | h
  · rw [h]
    rfl
  · rw [h]
    rfl

theorem drainN_succ (n : Nat) (s : CoordState) :
    drainN (n + 1) s = drainN n (drainStep s) := rfl

theorem drain_reaches (a : Nat) (ws1 : List Nat) (w : Nat) (ws2 : List Nat) :
    (drainN (ws1.length + 1) ⟨some a, ws1 ++ w :: ws2⟩).holder = some w := by
  induction ws1 generalizing a with
  | nil =>
    simp [drainN, drainStep, step, grantNext]
  | cons x xs ih =>
    have h1 : drainStep ⟨some a, (x :: xs) ++ w :: ws2⟩ = ⟨some x, xs ++ w :: ws2⟩ := by
      simp [drainStep, step, grantNext]
    rw [List.length_cons, drainN_succ, h1]
    exact ih x

end Docker

namespace Docker

/-- C1: for every unqualified reference the resolver's candidate list is the
public default registry (included only when it is not blocked) followed by
the additional registries in declared order with blocked ones filtered out;
in particular, with one additional registry `R` and no blocks, an
unqualified multi-segment reference resolves to exactly the public default
followed by `R`, in that order. -/
theorem resolve_unqualified_candidate_order :
    (∀ (p : RegistryPolicy) (raw path : Str),
      splitHost (splitRepoTag raw).1 = (none, path) →
      CandidateHosts p ≠ [] →
      Resolve p raw =
        .ok (((if IsBlocked p publicDefault = true then [] else [publicDefault]) ++
            p.additionalRegistries.filter fun h => !IsBlocked p h).map
          fun h => mkEndpoint h path)) ∧
    (∀ R : Str,
      Resolve ⟨[R], [], false, false⟩ (chars "dockercli/busybox") =
        .ok [mkEndpoint publicDefault (chars "dockercli/busybox"),
             mkEndpoint R (chars "dockercli/busybox")]) := by
  constructor
  · intro p raw path hsp hne
    rw [resolve_unqualified hsp, if_neg (by simp [List.isEmpty_iff, hne]),
      candidateHosts_eq]
  · intro R
    have h1 : splitHost (splitRepoTag (chars "dockercli/busybox")).1 =
        (none, chars "dockercli/busybox") := by decide
    have h2 : CandidateHosts ⟨[R], [], false, false⟩ = [publicDefault, R] := by
      simp [CandidateHosts, IsBlocked]
    rw [resolve_unqualified h1, h2]
    rfl

/-- Witness for C1 at a concrete policy and reference. -/
theorem resolve_unqualified_candidate_order_check :
    Resolve (RegistryPolicy.mk [chars "reg1.example.com:5000"] [] false false)
        (chars "dockercli/busybox") =
      .ok (((if IsBlocked (RegistryPolicy.mk [chars "reg1.example.com:5000"] [] false false)
              publicDefault = true then []
            else [publicDefault]) ++
          (RegistryPolicy.mk [chars "reg1.example.com:5000"] [] false
              false).additionalRegistries.filter
            fun h =>
              !IsBlocked (RegistryPolicy.mk [chars "reg1.example.com:5000"] [] false false) h).map
        fun h => mkEndpoint h (chars "dockercli/busybox")) :=
  resolve_unqualified_candidate_order.1 _ _ _ (by decide) (by decide)

/-- C2: with the `block-registry=all` sentinel set, every registry is
blocked (including every configured additional registry), `Resolve` fails
with `BlockedRegistryError` on every qualified reference and with
`AllRegistriesBlockedError` on every unqualified one, and no push or pull
can succeed. -/
theorem blockAll_blocks_every_operation (p : RegistryPolicy)
    (hall : p.blockAll = true) :
    (∀ h : Str, IsBlocked p h = true) ∧
    (∀ raw hh path : Str, splitHost (splitRepoTag raw).1 = (some hh, path) →
      Resolve p raw = .error .BlockedRegistry) ∧
    (∀ raw path : Str, splitHost (splitRepoTag raw).1 = (none, path) →
      Resolve p raw = .error .AllRegistriesBlocked) ∧
    (∀ (st : LocalStore) (raw : Str), exOk (doPush p st raw) = false) ∧
    (∀ (R : Remote) (st : LocalStore) (raw : Str),
      exOk (doPull p R st raw) = false) := by
  refine ⟨?_, ?_, ?_, ?_, ?_⟩
  · intro h
    simp [IsBlocked, hall]
  · intro raw hh path hsp
    simp [resolve_qualified hsp, IsBlocked, hall]
  · intro raw path hsp
    simp [resolve_unqualified hsp, candidateHosts_blockAll hall]
  · intro st raw
    exact doPush_blockAll hall st raw
  · intro R st raw
    exact doPull_blockAll hall R st raw

/-- Witness for C2 at a concrete policy built from `block-registry=all`. -/
theorem blockAll_blocks_every_operation_check :
    Resolve (mkPolicy [chars "reg1.example.com:5000"] [chars "all"])
        (chars "library/busybox") = .error .AllRegistriesBlocked ∧
    IsBlocked (mkPolicy [chars "reg1.example.com:5000"] [chars "all"])
        (chars "reg1.example.com:5000") = true :=
  ⟨(blockAll_blocks_every_operation _ (by decide)).2.2.1 (chars "library/busybox")
      (chars "library/busybox") (by decide),
   (blockAll_blocks_every_operation _ (by decide)).1 _⟩

/-- C3: a qualified reference whose (normalized) host is blocked resolves to
`BlockedRegistryError` with zero candidates — no fallback to the public
default or any additional registry, whatever the policy configures. -/
theorem resolve_qualified_blocked (p : RegistryPolicy) (raw hh path : Str)
    (hsp : splitHost (splitRepoTag raw).1 = (some hh, path))
    (hb : IsBlocked p (normalizeHost hh) = true) :
    Resolve p raw = .error .BlockedRegistry ∧
    ∀ cs : List ResolvedEndpoint, Resolve p raw ≠ .ok cs := by
  have h1 : Resolve p raw = .error .BlockedRegistry := by
    simp [resolve_qualified hsp, hb]
  exact ⟨h1, fun cs hc => by rw [h1] at hc; exact Except.noConfusion hc⟩

/-- Witness for C3: a qualified reference to a blocked host, with an
additional registry configured. -/
theorem resolve_qualified_blocked_check :
    Resolve (mkPolicy [chars "reg2.example.com:5000"] [chars "reg1.example.com:5000"])
        (chars "reg1.example.com:5000/library/hello-world") =
      .error .BlockedRegistry :=
  (resolve_qualified_blocked _ (chars "reg1.example.com:5000/library/hello-world")
    (chars "reg1.example.com:5000") (chars "library/hello-world")
    (by decide) (by decide)).1

end Docker

namespace Docker

/-- C8: a push of a single-segment unqualified name (no registry prefix, not
a hostname) is rejected before any upload, and the command exits with a
non-zero status. -/
theorem push_unprefixed_rejected (p : RegistryPolicy) (st : LocalStore)
    (raw path : Str)
    (hsp : splitHost (splitRepoTag raw).1 = (none, path))
    (hseg : segCount path = 1) :
    doPush p st raw = .error .unprefixedName ∧
    (runPush p st raw).exitCode ≠ 0 := by
  have hd : doPush p st raw = .error .unprefixedName := by
    simp only [doPush]
    rw [hsp]
    simp [hseg]
  refine ⟨hd, ?_⟩
  simp [runPush, hd]

/-- Witness for C8: pushing the bare name `busybox`. -/
theorem push_unprefixed_rejected_check :
    doPush defaultPolicy [] (chars "busybox") = .error .unprefixedName ∧
    (runPush defaultPolicy [] (chars "busybox")).exitCode ≠ 0 :=
  push_unprefixed_rejected defaultPolicy [] (chars "busybox") (chars "busybox")
    (by decide) (by decide)

/-- C9: pushing an unqualified repository in the canonical official
namespace (`library/<name>`) fails: exit status is non-zero, exactly one
advisory line goes to stderr telling the user to rename the repository to
`<user>/<name>`, and nothing is written to stdout. -/
theorem push_official_namespace_rejected (p : RegistryPolicy) (st : LocalStore)
    (raw short : Str)
    (hsp : splitHost (splitRepoTag raw).1 = (none, libraryPre ++ short)) :
    runPush p st raw = ⟨1, [], [pushErrMessage (.officialName short)]⟩ ∧
    (runPush p st raw).stdoutLines = [] ∧
    (runPush p st raw).stderrLines.length = 1 ∧
    (runPush p st raw).exitCode ≠ 0 ∧
    containsSub (pushErrMessage (.officialName short))
      (chars "rename your repository to") = true ∧
    containsSub (pushErrMessage (.officialName short))
      (chars "<user>/" ++ short) = true := by
  have hre : libraryPre ++ short = chars "library" ++ '/' :: short := rfl
  have hseg : ¬segCount (libraryPre ++ short) = 1 := by
    rw [hre, segCount_sep (by decide)]
    have h0 := segCount_pos short
    omega
  have hdrop : dropLibrary (libraryPre ++ short) = short :=
    List.drop_left libraryPre short
  have hd : doPush p st raw = .error (.officialName short) := by
    simp only [doPush]
    rw [hsp]
    simp [hseg, isPre_append, hdrop]
  have hr : runPush p st raw = ⟨1, [], [pushErrMessage (.officialName short)]⟩ := by
    simp [runPush, hd]
  have hm1 : containsSub (pushErrMessage (.officialName short))
      (chars "rename your repository to") = true := by
    have hdec : pushErrMessage (.officialName short) =
        chars "you cannot push to the official namespace; please " ++
          (chars "rename your repository to" ++
            (chars " one of the form: <user>/" ++ short)) := rfl
    rw [hdec]
    exact containsSub_append_left _ (containsSub_of_isPre (isPre_append _ _))
  have hm2 : containsSub (pushErrMessage (.officialName short))
      (chars "<user>/" ++ short) = true := by
    have hdec : pushErrMessage (.officialName short) =
        chars "you cannot push to the official namespace; please rename your repository to one of the form: " ++
          (chars "<user>/" ++ short) := rfl
    rw [hdec]
    exact containsSub_suffix _ _
  exact ⟨hr, by rw [hr], by rw [hr]; rfl, by rw [hr]; simp, hm1, hm2⟩

/-- Witness for C9: pushing `library/busybox`. -/
theorem push_official_namespace_rejected_check :
    runPush defaultPolicy [] (chars "library/busybox") =
      ⟨1, [], [pushErrMessage (.officialName (chars "busybox"))]⟩ ∧
    (runPush defaultPolicy [] (chars "library/busybox")).stdoutLines = [] ∧
    (runPush defaultPolicy [] (chars "library/busybox")).stderrLines.length = 1 ∧
    (runPush defaultPolicy [] (chars "library/busybox")).exitCode ≠ 0 ∧
    containsSub (pushErrMessage (.officialName (chars "busybox")))
      (chars "rename your repository to") = true ∧
    containsSub (pushErrMessage (.officialName (chars "busybox")))
      (chars "<user>/" ++ chars "busybox") = true :=
  push_official_namespace_rejected defaultPolicy [] (chars "library/busybox")
    (chars "busybox") (by decide)

end Docker

namespace Docker

/-- C6: pushing a repository name never tagged locally fails with a message
containing `Repository does not exist`; pushing an existing repository with
a tag never created locally fails with a distinct message containing
`does not exist`; the two messages are always distinguishable. -/
theorem push_missing_repo_and_tag_messages (p : RegistryPolicy)
    (st : LocalStore) (raw repo tag hh path : Str)
    (hparse : splitRepoTag raw = (repo, tag))
    (hsp : splitHost repo = (some hh, path)) :
    (hasRepo st repo = false →
      doPush p st raw = .error (.repositoryNotFound repo) ∧
      containsSub (pushErrMessage (.repositoryNotFound repo))
        (chars "Repository does not exist") = true) ∧
    (hasRepo st repo = true → tag ≠ [] → hasTag st repo tag = false →
      doPush p st raw = .error (.tagNotFound repo tag) ∧
      containsSub (pushErrMessage (.tagNotFound repo tag))
        (chars "does not exist") = true) ∧
    (∀ n₁ n₂ t₂ : Str,
      pushErrMessage (.repositoryNotFound n₁) ≠
        pushErrMessage (.tagNotFound n₂ t₂)) := by
  have hsp' : splitHost (splitRepoTag raw).1 = (some hh, path) := by
    rw [hparse]
    exact hsp
  refine ⟨?_, ?_, ?_⟩
  · intro hrepo
    constructor
    · simp only [doPush]
      rw [hsp']
      simp [pushChecked, hparse, hrepo]
    · have hdec : pushErrMessage (.repositoryNotFound repo) =
          chars "Repository does not exist" ++ (chars ": " ++ repo) := rfl
      rw [hdec]
      exact containsSub_of_isPre (isPre_append _ _)
  · intro hrepo htag hhast
    constructor
    · simp only [doPush]
      rw [hsp']
      simp [pushChecked, hparse, hrepo, hhast, List.isEmpty_iff, htag]
    · have hdec : pushErrMessage (.tagNotFound repo tag) =
          chars "tag " ++ (chars "does not exist" ++ (chars ": " ++ repo ++ ':' :: tag)) := rfl
      rw [hdec]
      exact containsSub_append_left _ (containsSub_of_isPre (isPre_append _ _))
  · intro n₁ n₂ t₂ hc
    have h1 : (pushErrMessage (.repositoryNotFound n₁)).head? = some 'R' := rfl
    have h2 : (pushErrMessage (.tagNotFound n₂ t₂)).head? = some 't' := rfl
    rw [hc, h2] at h1
    exact absurd h1 (by decide)

/-- Witness for C6: pushing a never-tagged repository, and a repository
tagged only with `t1` pushed with tag `latest`. -/
theorem push_missing_repo_and_tag_messages_check :
    (doPush defaultPolicy [] (chars "reg.example.com:5000/dockercli/busybox") =
      .error (.repositoryNotFound (chars "reg.example.com:5000/dockercli/busybox")) ∧
     containsSub
       (pushErrMessage (.repositoryNotFound (chars "reg.example.com:5000/dockercli/busybox")))
       (chars "Repository does not exist") = true) ∧
    (doPush defaultPolicy [(chars "reg.example.com:5000/dockercli/busybox", chars "t1")]
        (chars "reg.example.com:5000/dockercli/busybox:latest") =
      .error (.tagNotFound (chars "reg.example.com:5000/dockercli/busybox") (chars "latest")) ∧
     containsSub
       (pushErrMessage (.tagNotFound (chars "reg.example.com:5000/dockercli/busybox") (chars "latest")))
       (chars "does not exist") = true) :=
  ⟨(push_missing_repo_and_tag_messages defaultPolicy []
      (chars "reg.example.com:5000/dockercli/busybox")
      (chars "reg.example.com:5000/dockercli/busybox") []
      (chars "reg.example.com:5000") (chars "dockercli/busybox")
      (by decide) (by decide)).1 (by decide),
   ((push_missing_repo_and_tag_messages defaultPolicy
      [(chars "reg.example.com:5000/dockercli/busybox", chars "t1")]
      (chars "reg.example.com:5000/dockercli/busybox:latest")
      (chars "reg.example.com:5000/dockercli/busybox") (chars "latest")
      (chars "reg.example.com:5000") (chars "dockercli/busybox")
      (by decide) (by decide)).2.1 (by decide) (by decide) (by decide))⟩

/-- C10: pulling one specific `repo:tag` from a private registry records
exactly that tag locally: the pulled tag then inspects successfully, while a
sibling tag of the same repository that exists remotely but was not pulled
still fails inspection — the rest of the local store is unchanged. -/
theorem pull_single_tag_frame (p : RegistryPolicy) (R : Remote)
    (st : LocalStore) (raw repo hh path t t' : Str)
    (hparse : splitRepoTag raw = (repo, t)) (ht : t ≠ [])
    (hsp : splitHost repo = (some hh, path))
    (hnb : IsBlocked p (normalizeHost hh) = false)
    (hnp : normalizeHost hh ≠ publicDefault)
    (hrem : remoteHas R (normalizeHost hh) path t = true)
    (ht' : t' ≠ t) (ht'e : t' ≠ [])
    (hst : inspectLookup st (normalizeHost hh ++ '/' :: path) t' = false) :
    doPull p R st raw = .ok ((normalizeHost hh ++ '/' :: path, t) :: st) ∧
    inspectLookup ((normalizeHost hh ++ '/' :: path, t) :: st)
      (normalizeHost hh ++ '/' :: path) t = true ∧
    inspectLookup ((normalizeHost hh ++ '/' :: path, t) :: st)
      (normalizeHost hh ++ '/' :: path) t' = false := by
  have hsp' : splitHost (splitRepoTag raw).1 = (some hh, path) := by
    rw [hparse]
    exact hsp
  have hdt : defaultTag t = t := by
    simp [defaultTag, List.isEmpty_iff, ht]
  have hdt' : defaultTag t' = t' := by
    simp [defaultTag, List.isEmpty_iff, ht'e]
  have hres : Resolve p raw = .ok [mkEndpoint (normalizeHost hh) path] := by
    simp [resolve_qualified hsp', hnb]
  have hep : mkEndpoint (normalizeHost hh) path =
      ⟨normalizeHost hh, path, path, false⟩ := by
    simp [mkEndpoint, hnp]
  have hpull : doPull p R st raw = .ok ((normalizeHost hh ++ '/' :: path, t) :: st) := by
    simp only [doPull]
    rw [hparse]
    simp only [hdt, hres, hep]
    simp [findCandidate, hrem, displayName]
  refine ⟨hpull, ?_, ?_⟩
  · simp [inspectLookup, hdt]
  · simp only [inspectLookup, hdt'] at hst ⊢
    simp [List.mem_cons, ht']
    intro hc
    simp [hc] at hst

/-- Witness for C10: pull `recent`, sibling `fresh` stays absent. -/
theorem pull_single_tag_frame_check :
    doPull defaultPolicy
        [(chars "reg.example.com:5000", chars "dockercli/busybox", chars "recent"),
         (chars "reg.example.com:5000", chars "dockercli/busybox", chars "fresh")]
        [] (chars "reg.example.com:5000/dockercli/busybox:recent") =
      .ok [(chars "reg.example.com:5000" ++ '/' :: chars "dockercli/busybox", chars "recent")] ∧
    inspectLookup [(chars "reg.example.com:5000" ++ '/' :: chars "dockercli/busybox", chars "recent")]
      (chars "reg.example.com:5000" ++ '/' :: chars "dockercli/busybox") (chars "recent") = true ∧
    inspectLookup [(chars "reg.example.com:5000" ++ '/' :: chars "dockercli/busybox", chars "recent")]
      (chars "reg.example.com:5000" ++ '/' :: chars "dockercli/busybox") (chars "fresh") = false := by
  have h := pull_single_tag_frame defaultPolicy
    [(chars "reg.example.com:5000", chars "dockercli/busybox", chars "recent"),
     (chars "reg.example.com:5000", chars "dockercli/busybox", chars "fresh")]
    [] (chars "reg.example.com:5000/dockercli/busybox:recent")
    (chars "reg.example.com:5000/dockercli/busybox")
    (chars "reg.example.com:5000") (chars "dockercli/busybox")
    (chars "recent") (chars "fresh")
    (by decide) (by decide) (by decide) (by decide) (by decide) (by decide)
    (by decide) (by decide) (by decide)
  exact h

end Docker

namespace Docker

/-- C4: while push A holds the lease for an identity, a concurrent push B
for the same identity observes the `already in progress` status when it
queries early, is recorded in the wait set (never silently dropped), and —
once the holders ahead of it release in FIFO order — acquires the lease and
performs its own full push; with no other waiter this happens immediately
after A releases. B is never permanently blocked. -/
theorem concurrent_push_serialized (s : CoordState) (a b : Nat)
    (hhold : s.holder = some a) :
    containsSub (pushStatus s) (chars "already in progress") = true ∧
    decide (b ∈ (step s (.acquire b)).waiters) = true ∧
    (s.waiters = [] →
      (step (step s (.acquire b)) (.release a)).holder = some b) ∧
    ∃ n : Nat, (drainN n (step s (.acquire b))).holder = some b := by
  have hst : pushStatus s = chars "a push or pull is already in progress" := by
    simp [pushStatus, hhold]
  have hacq : step s (.acquire b) = ⟨some a, s.waiters ++ [b]⟩ := by
    simp [step, hhold]
  refine ⟨?_, ?_, ?_, ?_⟩
  · rw [hst]
    decide
  · rw [hacq]
    simp
  · intro hw
    rw [hacq, hw]
    simp [step, grantNext]
  · refine ⟨s.waiters.length + 1, ?_⟩
    rw [hacq]
    simpa using drain_reaches a s.waiters b []

/-- Witness for C4 with A holding, no other waiters, B arriving. -/
theorem concurrent_push_serialized_check :
    containsSub (pushStatus ⟨some 1, []⟩) (chars "already in progress") = true ∧
    decide (2 ∈ (step ⟨some 1, []⟩ (.acquire 2)).waiters) = true ∧
    ((⟨some 1, []⟩ : CoordState).waiters = [] →
      (step (step ⟨some 1, []⟩ (.acquire 2)) (.release 1)).holder = some 2) ∧
    ∃ n : Nat, (drainN n (step ⟨some 1, []⟩ (.acquire 2))).holder = some 2 :=
  concurrent_push_serialized ⟨some 1, []⟩ 1 2 rfl

/-- C5: if the holder of the push lease is killed after acquiring it, the
scoped release tied to the operation's lifetime frees the lease (the dead
task is no longer the holder), and a subsequent push for the same identity
eventually acquires the lease — no permanent deadlock. -/
theorem kill_releases_lease (s : CoordState) (a b : Nat)
    (hhold : s.holder = some a) (ha : a ∉ s.waiters) :
    (step s (.kill a)).holder ≠ some a ∧
    ∃ n : Nat,
      (drainN n (step (step s (.kill a)) (.acquire b))).holder = some b := by
  have hk : step s (.kill a) = grantNext s.waiters := by
    simp [step, hhold]
  constructor
  · rw [hk]
    cases hw : s.waiters with
    | nil => simp [grantNext]
    | cons w ws =>
      rw [hw] at ha
      simp [List.mem_cons] at ha
      simp [grantNext]
      exact fun he => ha.1 he.symm
  · rw [hk]
    cases hw : s.waiters with
    | nil =>
      refine ⟨0, ?_⟩
      simp [grantNext, step, drainN]
    | cons w ws =>
      refine ⟨ws.length + 1, ?_⟩
      have hs2 : step (grantNext (w :: ws)) (.acquire b) = ⟨some w, ws ++ [b]⟩ := by
        simp [grantNext, step]
      rw [hs2]
      simpa using drain_reaches w ws b []

/-- Witness for C5: holder 1 killed, push 2 then acquires. -/
theorem kill_releases_lease_check :
    (step ⟨some 1, []⟩ (.kill 1)).holder ≠ some 1 ∧
    ∃ n : Nat,
      (drainN n (step (step ⟨some 1, []⟩ (.kill 1)) (.acquire 2))).holder = some 2 :=
  kill_releases_lease ⟨some 1, []⟩ 1 2 rfl (by decide)

end Docker

namespace Docker

/-- C7: an unqualified single-segment reference is normalized to the
canonical official form `library/<path>` for the public default registry
while the user-visible name stays short; all official name variants (short,
`library/`-prefixed, host-qualified via the public default or its index
alias) resolve to the same registry identity; the not-found error message
uses the normalized name with the default tag `latest`, and the image
listing entry is the host-qualified display name. -/
theorem official_name_normalization (name : Str) (hne : name ≠ [])
    (hsl : '/' ∉ name) (hco : ':' ∉ name) (hdot : '.' ∉ name)
    (hloc : name ≠ chars "localhost") :
    (∀ p : RegistryPolicy, IsBlocked p publicDefault = false →
      ∃ rest, Resolve p name =
        .ok (⟨publicDefault, libraryPre ++ name, name, true⟩ :: rest)) ∧
    mkEndpoint publicDefault name =
      ⟨publicDefault, libraryPre ++ name, name, true⟩ ∧
    resolveIdent defaultPolicy name =
      .ok [(publicDefault, libraryPre ++ name)] ∧
    resolveIdent defaultPolicy (libraryPre ++ name) =
      .ok [(publicDefault, libraryPre ++ name)] ∧
    resolveIdent defaultPolicy (chars "docker.io/" ++ name) =
      .ok [(publicDefault, libraryPre ++ name)] ∧
    resolveIdent defaultPolicy (chars "index.docker.io/" ++ name) =
      .ok [(publicDefault, libraryPre ++ name)] ∧
    resolveIdent defaultPolicy (chars "docker.io/library/" ++ name) =
      .ok [(publicDefault, libraryPre ++ name)] ∧
    resolveIdent defaultPolicy (chars "index.docker.io/library/" ++ name) =
      .ok [(publicDefault, libraryPre ++ name)] ∧
    doPull defaultPolicy [] [] name =
      .error (.notFound (libraryPre ++ name) (chars "latest")) ∧
    pullErrMessage (.notFound (libraryPre ++ name) (chars "latest")) =
      chars "Error: image library/" ++ name ++ chars ":latest not found" ∧
    displayName (mkEndpoint publicDefault name) = chars "docker.io/" ++ name := by
  have hrt : splitRepoTag name = (name, []) := splitRepoTag_no_colon hco
  have hsp1 : splitHost (splitRepoTag name).1 = (none, name) := by
    rw [hrt]
    exact splitHost_no_slash hsl
  have hme : mkEndpoint publicDefault name =
      ⟨publicDefault, libraryPre ++ name, name, true⟩ := by
    simp [mkEndpoint, normalizePath, segCount_no_slash hsl, isPre_append]
  have happco : ∀ pre : Str, ':' ∉ pre → ':' ∉ pre ++ name := by
    intro pre hp hm
    rcases List.mem_append.mp hm with h | h
    · exact hp h
    · exact hco h
  have hre2 : libraryPre ++ name = chars "library" ++ '/' :: name := rfl
  have hsp2 : splitHost (splitRepoTag (libraryPre ++ name)).1 =
      (none, libraryPre ++ name) := by
    rw [splitRepoTag_no_colon (happco _ (by decide))]
    rw [hre2]
    exact splitHost_noHost (by decide) (by decide) name
  have hseg2 : ¬segCount (libraryPre ++ name) = 1 := by
    rw [hre2, segCount_sep (by decide)]
    have h0 := segCount_pos name
    omega
  have hme2 : mkEndpoint publicDefault (libraryPre ++ name) =
      ⟨publicDefault, libraryPre ++ name, libraryPre ++ name, true⟩ := by
    simp [mkEndpoint, normalizePath, hseg2, isPre_append]
  have hsp3 : splitHost (splitRepoTag (chars "docker.io/" ++ name)).1 =
      (some (chars "docker.io"), name) := by
    rw [splitRepoTag_no_colon (happco _ (by decide))]
    rw [show chars "docker.io/" ++ name = chars "docker.io" ++ '/' :: name from rfl]
    exact splitHost_host (by decide) (by decide) name
  have hsp4 : splitHost (splitRepoTag (chars "index.docker.io/" ++ name)).1 =
      (some (chars "index.docker.io"), name) := by
    rw [splitRepoTag_no_colon (happco _ (by decide))]
    rw [show chars "index.docker.io/" ++ name = chars "index.docker.io" ++ '/' :: name from rfl]
    exact splitHost_host (by decide) (by decide) name
  have hsp5 : splitHost (splitRepoTag (chars "docker.io/library/" ++ name)).1 =
      (some (chars "docker.io"), libraryPre ++ name) := by
    rw [splitRepoTag_no_colon (happco _ (by decide))]
    rw [show chars "docker.io/library/" ++ name =
      chars "docker.io" ++ '/' :: (chars "library" ++ '/' :: name) from rfl]
    rw [splitHost_host (by decide) (by decide) _]
    rfl
  have hsp6 : splitHost (splitRepoTag (chars "index.docker.io/library/" ++ name)).1 =
      (some (chars "index.docker.io"), libraryPre ++ name) := by
    rw [splitRepoTag_no_colon (happco _ (by decide))]
    rw [show chars "index.docker.io/library/" ++ name =
      chars "index.docker.io" ++ '/' :: (chars "library" ++ '/' :: name) from rfl]
    rw [splitHost_host (by decide) (by decide) _]
    rfl
  have hch : CandidateHosts defaultPolicy = [publicDefault] := by decide
  have hnb0 : IsBlocked defaultPolicy publicDefault = false := by decide
  have hnh : normalizeHost (chars "docker.io") = publicDefault := by decide
  have hnh2 : normalizeHost (chars "index.docker.io") = publicDefault := by decide
  have hres1 : Resolve defaultPolicy name =
      .ok [⟨publicDefault, libraryPre ++ name, name, true⟩] := by
    rw [resolve_unqualified hsp1, hch]
    simp [hme]
  refine ⟨?_, hme, ?_, ?_, ?_, ?_, ?_, ?_, ?_, ?_, ?_⟩
  · intro p hnb
    refine ⟨(p.additionalRegistries.filter fun h => !IsBlocked p h).map
      fun h => mkEndpoint h name, ?_⟩
    have hcand : CandidateHosts p =
        publicDefault :: p.additionalRegistries.filter fun h => !IsBlocked p h := by
      unfold CandidateHosts
      rw [List.filter_cons]
      simp [hnb]
    rw [resolve_unqualified hsp1, hcand]
    simp [hme]
  · simp [resolveIdent, hres1, Except.map]
  · simp [resolveIdent, resolve_unqualified hsp2, hch, hme2, Except.map]
  · simp [resolveIdent, resolve_qualified hsp3, hnh, hnb0, hme, Except.map]
  · simp [resolveIdent, resolve_qualified hsp4, hnh2, hnb0, hme, Except.map]
  · simp [resolveIdent, resolve_qualified hsp5, hnh, hnb0, hme2, Except.map]
  · simp [resolveIdent, resolve_qualified hsp6, hnh2, hnb0, hme2, Except.map]
  · simp [doPull, hrt, hres1, findCandidate, remoteHas, headRemotePath, defaultTag]
  · have hpre : chars "Error: image library/" = chars "Error: image " ++ libraryPre := rfl
    have htail : ':' :: (chars "latest" ++ chars " not found") =
        chars ":latest not found" := rfl
    rw [hpre]
    simp [pullErrMessage, List.append_assoc, htail]
  · rw [hme]
    simp [displayName, dropLibrary, List.drop_left]
    rfl

/-- Witness for C7 at the concrete official name `hello-world`. -/
theorem official_name_normalization_check :
    resolveIdent defaultPolicy (chars "index.docker.io/library/" ++ chars "hello-world") =
      .ok [(publicDefault, libraryPre ++ chars "hello-world")] ∧
    doPull defaultPolicy [] [] (chars "hello-world") =
      .error (.notFound (libraryPre ++ chars "hello-world") (chars "latest")) :=
  ⟨(official_name_normalization (chars "hello-world") (by decide) (by decide)
      (by decide) (by decide) (by decide)).2.2.2.2.2.2.2.1,
   (official_name_normalization (chars "hello-world") (by decide) (by decide)
      (by decide) (by decide) (by decide)).2.2.2.2.2.2.2.2.1⟩

end Docker
